import Mathlib

/-!
# Verification of the vgsales dashboard derivation layer

Shallow embedding of the aggregation/derivation functions of the
`vgsales` analytics dashboard (`src/components/Dashboard.tsx` and the
near-duplicate dashboard variant), together with proofs of the
testable properties stated in the specification.

Modelling conventions:
* A parsed CSV row is a `GameData` record.  Fields that the record
  source may leave absent (failed numeric coercion or missing cell)
  are `Option`-typed; an absent numeric field contributes `0` to sums,
  mirroring the JavaScript `(x || 0)` / `Number(x) || 0` guards.
* JavaScript numbers are modelled as `ℚ`.  The non-finite sentinels
  (`NaN`, `Infinity`) that JavaScript division by zero produces are
  modelled by `Option ℚ` where they can arise (`none` = non-finite).
* JavaScript objects used as accumulators are modelled as association
  lists in insertion order (first-seen key order).  `Object.entries`
  does NOT enumerate in insertion order when integer-like keys are
  present (array-index keys come first, ascending numerically); the
  enumeration view of an object is `jsEntries` below, and every
  consumer of `Object.entries` in the code goes through it.
* `Array.prototype.sort` with a consistent comparator is a stable sort
  (ECMAScript 2019); it is modelled by the stable insertion sort
  `ssort` below.  Since `sort` also mutates the array in place, the
  render-site helper `topTenRender` returns the post-call array
  contents alongside the rendered slice.
-/

/-- One parsed row of the vgsales dataset, after the record source's
field coercion (`src/types/types.ts` `GameData`; numeric fields that
fail coercion and missing cells are absent). -/
structure GameData where
  Rank : Option Int
  Name : String
  Platform : Option String
  Year : Option Int
  Genre : String
  Publisher : String
  NA_Sales : Option ℚ
  EU_Sales : Option ℚ
  JP_Sales : Option ℚ
  Other_Sales : Option ℚ
  Global_Sales : Option ℚ
deriving DecidableEq, Repr

/-- JavaScript truthiness of a possibly-absent year: `undefined`/`null`
and `0` are falsy (`game.Year && …` in `Dashboard.tsx` line 91). -/
def yearTruthy : Option Int → Bool
  | none => false
  | some y => y != 0

/-- `String(game.Year)` for a present year (only evaluated under the
truthiness guard; `String(undefined)` would be `"undefined"`). -/
def yearString : Option Int → String
  | none => "undefined"
  | some y => toString y

/-- Year constraint of `Dashboard.tsx` `filteredData` (lines 90–91):
`filterYear === "all" || (game.Year && String(game.Year) === filterYear)`. -/
def yearMatch (g : GameData) (fy : String) : Bool :=
  (fy == "all") || (yearTruthy g.Year && (yearString g.Year == fy))

/-- Platform constraint of `filteredData` (lines 92–93):
`filterPlatform === "all" || game.Platform === filterPlatform`
(an absent platform is `undefined`, which `===`-equals no string). -/
def platformMatch (g : GameData) (fp : String) : Bool :=
  (fp == "all") ||
    (match g.Platform with
     | some p => p == fp
     | none => false)

/-- `filteredData` of `Dashboard.tsx` (lines 88–96): keep records
matching both the year and the platform constraint, in input order. -/
def filteredData (data : List GameData) (fy fp : String) : List GameData :=
  data.filter (fun g => yearMatch g fy && platformMatch g fp)

/-- JavaScript `parseInt` restricted to the shapes that occur here:
optional sign followed by leading decimal digits; `none` models the
`NaN` result when no digits can be consumed. -/
def jsParseInt (s : String) : Option Int :=
  let signed : Bool × List Char :=
    match s.data with
    | '-' :: t => (true, t)
    | '+' :: t => (false, t)
    | cs => (false, cs)
  let neg := signed.1
  let digs := signed.2.takeWhile Char.isDigit
  if digs.isEmpty then none
  else
    let n : Nat := digs.foldl (fun a c => a * 10 + (c.toNat - 48)) 0
    some (if neg then -(n : Int) else (n : Int))

/-- Year constraint of the other dashboard variant
(`src/unnamed/part_001` lines 66–67):
`filterYear === "all" || game.Year === parseInt(filterYear)`
(strict equality is false whenever either side is absent/`NaN`). -/
def yearMatchV1 (g : GameData) (fy : String) : Bool :=
  (fy == "all") ||
    (match g.Year, jsParseInt fy with
     | some y, some n => y == n
     | _, _ => false)

/-- `filteredData` of the other dashboard variant
(`src/unnamed/part_001` lines 65–73). -/
def filteredDataV1 (data : List GameData) (fy fp : String) : List GameData :=
  data.filter (fun g => yearMatchV1 g fy && platformMatch g fp)

/-- `Number(game.Global_Sales) || 0` / `(game.Global_Sales || 0)`:
the global-sales figure with an absent value treated as `0`. -/
def numGS (g : GameData) : ℚ :=
  g.Global_Sales.getD 0

/-- `acc[k] = (acc[k] or 0) + v` on a JavaScript object held as an
association list in insertion order: update the (unique) entry for `k`
if present, otherwise append `(k, v)` at the end.  This is the body of
the `reduce` in `platformSales`/`genreSales`/`yearlyTrend`. -/
def bump {K : Type} [DecidableEq K] : List (K × ℚ) → K → ℚ → List (K × ℚ)
  | [], k, v => [(k, v)]
  | p :: t, k, v =>
      if p.1 = k then (p.1, p.2 + v) :: t else p :: bump t k v

/-- Group-and-sum over a record list (the `reduce` pattern of
`Dashboard.tsx` lines 100–118): the object in insertion (first-seen)
key order, each key's value the sum of `val` over the records with
that key.  This is the object itself; its `Object.entries` enumeration
view is `jsEntries` applied to it. -/
def groupSum {K : Type} [DecidableEq K]
    (l : List GameData) (key : GameData → K) (val : GameData → ℚ) :
    List (K × ℚ) :=
  l.foldl (fun acc g => bump acc (key g) (val g)) []

/-- JavaScript string coercion of a possibly-absent platform used as an
object key: `undefined` becomes the key `"undefined"`. -/
def platformKey (o : Option String) : String :=
  o.getD "undefined"

/-- `platformSales` of `Dashboard.tsx` (lines 100–108).  Note that
platform names such as `"2600"` are array-index keys, so
`Object.entries(platformSales)` enumerates them before the others. -/
def platformSales (l : List GameData) : List (String × ℚ) :=
  groupSum l (fun g => platformKey g.Platform) numGS

/-- `genreSales` of `Dashboard.tsx` (lines 110–118). -/
def genreSales (l : List GameData) : List (String × ℚ) :=
  groupSum l (fun g => g.Genre) numGS

/-- `yearlyTrend` of `Dashboard.tsx` (lines 120–130): like `groupSum`
keyed on the year, but a record is only counted when its year is
truthy (`if (game.Year) …`). -/
def yearlyTrend (l : List GameData) : List (Int × ℚ) :=
  l.foldl
    (fun acc g =>
      if yearTruthy g.Year then bump acc (g.Year.getD 0) (numGS g) else acc)
    []

/-- Sum of all group values of an aggregate. -/
def sumVals {K : Type} (m : List (K × ℚ)) : ℚ :=
  (m.map Prod.snd).sum

/-- The descending global-sales comparator
`(a, b) => (b.Global_Sales || 0) - (a.Global_Sales || 0)` as the
boolean "a may precede b" relation a stable sort realises. -/
def gsGE (a b : GameData) : Bool :=
  numGS b ≤ numGS a

/-- Stable insertion of `a` into a list sorted by the boolean
"may precede" relation `le`: `a` is placed before the first element it
may precede, so an element keeps its position relative to elements
that compare equal. -/
def sinsert {α : Type} (le : α → α → Bool) (a : α) : List α → List α
  | [] => [a]
  | b :: t => if le a b then a :: b :: t else b :: sinsert le a t

/-- Stable sort by the boolean relation `le` (insertion sort).  For a
total, transitive comparator the output of a stable sort is the unique
sorted permutation keeping equal elements in input order, so this is
exactly what JavaScript `Array.prototype.sort` (stable per the
language specification) computes. -/
def ssort {α : Type} (le : α → α → Bool) : List α → List α
  | [] => []
  | a :: t => sinsert le a (ssort le t)

/-- The full descending ranking `filteredData.sort(cmp)` computes. -/
def rankDesc (l : List GameData) : List GameData :=
  ssort gsGE l

/-- `records.sort(cmp).slice(0, n)`: the top-`n` ranking by
global sales (`Dashboard.tsx` lines 733–738 with `n = 10`). -/
def topN (l : List GameData) (n : Nat) : List GameData :=
  (rankDesc l).take n

/-- The Top-10 chart's data expression `filteredData.sort(cmp).slice(0, 10)`
(`Dashboard.tsx` lines 733–738), with the in-place mutation of
`Array.prototype.sort` made explicit: the first component is the
contents of the `filteredData` array after the call returns (sorted in
place), the second is the value handed to the chart. -/
def topTenRender (l : List GameData) : List GameData × List GameData :=
  (rankDesc l, (rankDesc l).take 10)

/-- JavaScript array-index test (`OrdinaryOwnPropertyKeys`): a string
property key is an array index iff it is the canonical decimal form of
an integer `n` with `0 ≤ n < 2^32 - 1` (all digits, no leading zero,
no sign).  Such keys — e.g. the platform `"2600"` or the stringified
year keys — enumerate before all other keys, in ascending numeric
order. -/
def arrayIndexVal (s : String) : Option Nat :=
  if s.data ≠ [] ∧ s.data.all Char.isDigit then
    let n : Nat := s.data.foldl (fun a c => a * 10 + (c.toNat - 48)) 0
    if toString n == s ∧ n < 4294967295 then some n else none
  else none

/-- Ascending numeric order on array-index entries of an aggregate
(`keyStr` gives the JavaScript string form of the key). -/
def idxLE {K : Type} (keyStr : K → String) (p q : K × ℚ) : Bool :=
  (arrayIndexVal (keyStr p.1)).getD 0 ≤ (arrayIndexVal (keyStr q.1)).getD 0

/-- `Object.entries` enumeration order of an insertion-ordered
JavaScript object: entries whose key is an array index come first, in
ascending numeric order, followed by the remaining string-keyed
entries in insertion (first-seen) order.  Distinct keys have distinct
numeric values (the canonical form is injective), so the sort order of
the array-index block is unambiguous. -/
def jsEntries {K : Type} (keyStr : K → String) (m : List (K × ℚ)) :
    List (K × ℚ) :=
  ssort (idxLE keyStr) (m.filter (fun p => (arrayIndexVal (keyStr p.1)).isSome))
    ++ m.filter (fun p => !(arrayIndexVal (keyStr p.1)).isSome)

/-- `acc[k] = v` on a JavaScript object held as an association list:
overwrite the entry for `k` in place if present, else append. -/
def objSet {K : Type} [DecidableEq K] : List (K × ℚ) → K → ℚ → List (K × ℚ)
  | [], k, v => [(k, v)]
  | p :: t, k, v =>
      if p.1 = k then (k, v) :: t else p :: objSet t k v

/-- `averageSalesByGenre` of `Dashboard.tsx` (lines 132–143): for each
entry of `Object.entries(genreSales)` (enumeration order), divide the
summed sales by the number of filtered records with that exact
genre. -/
def averageSalesByGenre (l : List GameData) : List (String × ℚ) :=
  (jsEntries (fun s => s) (genreSales l)).foldl
    (fun acc p =>
      objSet acc p.1 (p.2 / ((l.filter (fun g => g.Genre == p.1)).length : ℚ)))
    []

/-- The four tracked regional totals. -/
structure Regions where
  NA : ℚ
  EU : ℚ
  JP : ℚ
  Other : ℚ
deriving DecidableEq, Repr

/-- One step of the `regionalSales` reduce (`Dashboard.tsx` lines 146–152). -/
def addRegions (acc : Regions) (g : GameData) : Regions :=
  { NA := acc.NA + g.NA_Sales.getD 0
    EU := acc.EU + g.EU_Sales.getD 0
    JP := acc.JP + g.JP_Sales.getD 0
    Other := acc.Other + g.Other_Sales.getD 0 }

/-- `regionalSales` of `Dashboard.tsx` (lines 145–155): fold adding
each record's four regional figures, absent treated as `0`. -/
def regionalSales (l : List GameData) : Regions :=
  l.foldl addRegions { NA := 0, EU := 0, JP := 0, Other := 0 }

/-- JavaScript division with the non-finite outcomes (`NaN`, `±Infinity`
on a zero divisor) collapsed to `none`; JavaScript division never
throws, so a zero divisor yields this sentinel, not a fault. -/
def jsDiv (a b : ℚ) : Option ℚ :=
  if b = 0 then none else some (a / b)

/-- The descending-by-value comparator `([,a],[,b]) => b - a` on
aggregate entries, as a boolean "may precede" relation. -/
def valGE {K : Type} (p q : K × ℚ) : Bool :=
  q.2 ≤ p.2

/-- `Object.entries(m).sort(([,a],[,b]) => b - a)[0]`: first entry of
the stable descending-by-value ordering of an aggregate (`undefined`,
i.e. `none`, on an empty aggregate). -/
def topEntry {K : Type} (m : List (K × ℚ)) : Option (K × ℚ) :=
  (ssort valGE m).head?

/-- The first entry of an aggregate whose value is greatest (ties go to
the earlier entry): the specified meaning of the "top group". -/
def firstMax {K : Type} (m : List (K × ℚ)) : Option (K × ℚ) :=
  m.find? (fun p => m.all (fun q => q.2 ≤ p.2))

/-- `Object.entries(m).sort(([,a],[,b]) => b - a)[0]` on the actual
JavaScript object `m`: the entries are first taken in `Object.entries`
enumeration order, then stably sorted descending by value. -/
def topEntryJS {K : Type} (keyStr : K → String) (m : List (K × ℚ)) :
    Option (K × ℚ) :=
  topEntry (jsEntries keyStr m)

/-- The summary-metrics object of `Dashboard.tsx` (lines 157–197),
computed from the filtered record list.  Values that JavaScript
renders as `NaN`/`Infinity` (zero divisor) or `undefined` (empty
aggregate) are `none`. -/
structure Metrics where
  totalGames : Nat
  totalSales : ℚ
  avgSalesPerGame : Option ℚ
  topPlatform : Option (String × ℚ)
  topGenre : Option (String × ℚ)
  shareNA : Option ℚ
  shareEU : Option ℚ
  shareJP : Option ℚ
  shareOther : Option ℚ
  bestYear : Option (Int × ℚ)

/-- `metrics` of `Dashboard.tsx` (lines 157–197). -/
def metrics (l : List GameData) : Metrics :=
  let totalSales := l.foldl (fun s g => s + numGS g) 0
  let rs := regionalSales l
  { totalGames := l.length
    totalSales := totalSales
    avgSalesPerGame := jsDiv totalSales (l.length : ℚ)
    topPlatform := topEntryJS (fun s => s) (platformSales l)
    topGenre := topEntryJS (fun s => s) (genreSales l)
    shareNA := (jsDiv rs.NA totalSales).map (· * 100)
    shareEU := (jsDiv rs.EU totalSales).map (· * 100)
    shareJP := (jsDiv rs.JP totalSales).map (· * 100)
    shareOther := (jsDiv rs.Other totalSales).map (· * 100)
    bestYear := topEntryJS (fun y => toString y) (yearlyTrend l) }

/-- A record as enriched by `loadData` (`Dashboard.tsx` lines 58–66):
the spread `{ ...game, Total_Regional_Sales: … }` copies every field
and adds the calculated one. -/
structure EnrichedGameData where
  Rank : Option Int
  Name : String
  Platform : Option String
  Year : Option Int
  Genre : String
  Publisher : String
  NA_Sales : Option ℚ
  EU_Sales : Option ℚ
  JP_Sales : Option ℚ
  Other_Sales : Option ℚ
  Global_Sales : Option ℚ
  Total_Regional_Sales : ℚ
deriving DecidableEq, Repr

/-- The per-record body of `dataWithCalculatedFields`
(`Dashboard.tsx` lines 59–66). -/
def enrich (g : GameData) : EnrichedGameData :=
  { Rank := g.Rank
    Name := g.Name
    Platform := g.Platform
    Year := g.Year
    Genre := g.Genre
    Publisher := g.Publisher
    NA_Sales := g.NA_Sales
    EU_Sales := g.EU_Sales
    JP_Sales := g.JP_Sales
    Other_Sales := g.Other_Sales
    Global_Sales := g.Global_Sales
    Total_Regional_Sales :=
      g.NA_Sales.getD 0 + g.EU_Sales.getD 0 +
        g.JP_Sales.getD 0 + g.Other_Sales.getD 0 }

/-- `dataWithCalculatedFields` (`Dashboard.tsx` lines 59–66). -/
def dataWithCalculatedFields (l : List GameData) : List EnrichedGameData :=
  l.map enrich

/-! ## Concrete sample records used in witnesses and counterexamples -/

/-- A fully populated record: Wii, 2008, genre Action, 10M global sales. -/
def gWii2008 : GameData :=
  { Rank := some 1, Name := "Wii Sports", Platform := some "Wii",
    Year := some 2008, Genre := "Action", Publisher := "Nintendo",
    NA_Sales := some 4, EU_Sales := some 3, JP_Sales := some 2,
    Other_Sales := some 1, Global_Sales := some 10 }

/-- A record whose year and platform are both absent. -/
def gAbsent : GameData :=
  { Rank := none, Name := "Unknown", Platform := none,
    Year := none, Genre := "Misc", Publisher := "Unknown",
    NA_Sales := none, EU_Sales := none, JP_Sales := none,
    Other_Sales := none, Global_Sales := some 5 }

/-- A record with the (truthiness-falsy) year `0`. -/
def gYear0 : GameData :=
  { Rank := none, Name := "Year Zero", Platform := some "PC",
    Year := some 0, Genre := "Misc", Publisher := "Unknown",
    NA_Sales := none, EU_Sales := none, JP_Sales := none,
    Other_Sales := none, Global_Sales := some 1 }

/-- A low-selling record (1M global sales). -/
def gLow : GameData :=
  { Rank := some 2, Name := "Low", Platform := some "DS",
    Year := some 2008, Genre := "Puzzle", Publisher := "P",
    NA_Sales := none, EU_Sales := none, JP_Sales := none,
    Other_Sales := none, Global_Sales := some 1 }

/-- A record on the Atari 2600: its platform name `"2600"` is an
array-index object key.  Global sales tie with `gWii2008` (10M). -/
def g2600 : GameData :=
  { Rank := some 4, Name := "Pitfall", Platform := some "2600",
    Year := some 1982, Genre := "Action", Publisher := "Activision",
    NA_Sales := none, EU_Sales := none, JP_Sales := none,
    Other_Sales := none, Global_Sales := some 10 }

/-- A high-selling record (2M global sales). -/
def gHigh : GameData :=
  { Rank := some 3, Name := "High", Platform := some "Wii",
    Year := some 2009, Genre := "Sports", Publisher := "P",
    NA_Sales := none, EU_Sales := none, JP_Sales := none,
    Other_Sales := none, Global_Sales := some 2 }

/-! ## Helper lemmas: the stable sort -/

/-- Inserting permutes: `sinsert le a l` is `a :: l` up to order. -/
theorem perm_sinsert {α : Type} (le : α → α → Bool) (a : α) :
    ∀ l : List α, (sinsert le a l).Perm (a :: l)
  | [] => List.Perm.refl _
  | b :: t => by
    by_cases h : le a b
    · simp [sinsert, h]
    · simp only [sinsert, if_neg h]
      exact ((perm_sinsert le a t).cons b).trans (List.Perm.swap a b t)

theorem mem_sinsert {α : Type} (le : α → α → Bool) (a x : α) (l : List α) :
    x ∈ sinsert le a l ↔ x = a ∨ x ∈ l := by
  rw [(perm_sinsert le a l).mem_iff, List.mem_cons]

/-- Sorting permutes. -/
theorem perm_ssort {α : Type} (le : α → α → Bool) :
    ∀ l : List α, (ssort le l).Perm l
  | [] => List.Perm.refl _
  | a :: t =>
    (perm_sinsert le a (ssort le t)).trans ((perm_ssort le t).cons a)

theorem pairwise_sinsert {α : Type} {le : α → α → Bool}
    (htrans : ∀ a b c, le a b = true → le b c = true → le a c = true)
    (htotal : ∀ a b, le a b = true ∨ le b a = true) (a : α) :
    ∀ l : List α, l.Pairwise (fun x y => le x y = true) →
      (sinsert le a l).Pairwise (fun x y => le x y = true)
  | [], _ => by simp [sinsert]
  | b :: t, h => by
    by_cases hab : le a b = true
    · simp only [sinsert, if_pos hab]
      refine List.Pairwise.cons ?_ h
      intro x hx
      rcases List.mem_cons.mp hx with rfl | hxt
      · exact hab
      · exact htrans a b x hab (List.rel_of_pairwise_cons h hxt)
    · simp only [sinsert, if_neg hab]
      have hba : le b a = true := (htotal a b).resolve_left hab
      refine List.Pairwise.cons ?_
        (pairwise_sinsert htrans htotal a t (List.pairwise_cons.mp h).2)
      intro x hx
      rcases (mem_sinsert le a x t).mp hx with rfl | hxt
      · exact hba
      · exact List.rel_of_pairwise_cons h hxt

/-- The sort output is sorted (for a transitive, total comparator). -/
theorem pairwise_ssort {α : Type} {le : α → α → Bool}
    (htrans : ∀ a b c, le a b = true → le b c = true → le a c = true)
    (htotal : ∀ a b, le a b = true ∨ le b a = true) :
    ∀ l : List α, (ssort le l).Pairwise (fun x y => le x y = true)
  | [] => List.Pairwise.nil
  | a :: t =>
    pairwise_sinsert htrans htotal a (ssort le t)
      (pairwise_ssort htrans htotal t)

/-- Sorting an already sorted list changes nothing. -/
theorem ssort_of_sorted {α : Type} {le : α → α → Bool} :
    ∀ {l : List α}, l.Pairwise (fun x y => le x y = true) → ssort le l = l
  | [], _ => rfl
  | a :: t, h => by
    have ht : ssort le t = t := ssort_of_sorted (List.pairwise_cons.mp h).2
    show sinsert le a (ssort le t) = a :: t
    rw [ht]
    cases t with
    | nil => rfl
    | cons b t' =>
      have hab : le a b = true :=
        (List.pairwise_cons.mp h).1 b (List.mem_cons_self b t')
      simp [sinsert, hab]

theorem filter_sinsert_pos {α : Type} (le : α → α → Bool) (p : α → Bool)
    (a : α) (ha : p a = true) :
    ∀ l : List α, (∀ y ∈ l, p y = true → le a y = true) →
      (sinsert le a l).filter p = a :: l.filter p
  | [], _ => by simp [sinsert, ha]
  | b :: t, h => by
    by_cases hab : le a b = true
    · simp [sinsert, hab, List.filter_cons, ha]
    · simp only [sinsert, if_neg hab]
      by_cases hpb : p b = true
      · exact absurd (h b (List.mem_cons_self b t) hpb) hab
      · have ih := filter_sinsert_pos le p a ha t
          (fun y hy hpy => h y (List.mem_cons_of_mem b hy) hpy)
        simp [List.filter_cons, hpb, ih, ha]

theorem filter_sinsert_neg {α : Type} (le : α → α → Bool) (p : α → Bool)
    (a : α) (ha : p a = false) :
    ∀ l : List α, (sinsert le a l).filter p = l.filter p
  | [] => by simp [sinsert, ha]
  | b :: t => by
    by_cases hab : le a b = true
    · simp [sinsert, hab, List.filter_cons, ha]
    · simp only [sinsert, if_neg hab]
      simp [List.filter_cons, filter_sinsert_neg le p a ha t]

/-- Stability of the sort, as preservation of filters: the elements
satisfying a predicate that forces mutual ties appear in the sorted
output exactly as they appear in the input. -/
theorem filter_ssort {α : Type} (le : α → α → Bool) (p : α → Bool) :
    ∀ l : List α,
      (∀ x y, x ∈ l → y ∈ l → p x = true → p y = true → le x y = true) →
      (ssort le l).filter p = l.filter p
  | [], _ => rfl
  | a :: t, hp => by
    have ih := filter_ssort le p t
      (fun x y hx hy => hp x y (List.mem_cons_of_mem a hx)
        (List.mem_cons_of_mem a hy))
    by_cases hpa : p a = true
    · have hstep : (sinsert le a (ssort le t)).filter p =
          a :: (ssort le t).filter p := by
        refine filter_sinsert_pos le p a hpa (ssort le t) ?_
        intro y hy hpy
        exact hp a y (List.mem_cons_self a t)
          (List.mem_cons_of_mem a ((perm_ssort le t).mem_iff.mp hy)) hpa hpy
      show (sinsert le a (ssort le t)).filter p = (a :: t).filter p
      rw [hstep, ih, List.filter_cons, if_pos hpa]
    · have hpa' : p a = false := Bool.eq_false_iff.mpr hpa
      show (sinsert le a (ssort le t)).filter p = (a :: t).filter p
      rw [filter_sinsert_neg le p a hpa' (ssort le t), ih,
        List.filter_cons, if_neg hpa]

theorem gsGE_trans : ∀ a b c : GameData,
    gsGE a b = true → gsGE b c = true → gsGE a c = true := by
  intro a b c h1 h2
  simp only [gsGE, decide_eq_true_eq] at h1 h2 ⊢
  exact le_trans h2 h1

theorem gsGE_total : ∀ a b : GameData, gsGE a b = true ∨ gsGE b a = true := by
  intro a b
  simp only [gsGE, decide_eq_true_eq]
  exact (le_total (numGS b) (numGS a))

theorem valGE_trans {K : Type} : ∀ p q r : K × ℚ,
    valGE p q = true → valGE q r = true → valGE p r = true := by
  intro p q r h1 h2
  simp only [valGE, decide_eq_true_eq] at h1 h2 ⊢
  exact le_trans h2 h1

theorem valGE_total {K : Type} :
    ∀ p q : K × ℚ, valGE p q = true ∨ valGE q p = true := by
  intro p q
  simp only [valGE, decide_eq_true_eq]
  exact le_total q.2 p.2

/-- `find?` returns the head of the filtered list. -/
theorem find?_eq_head_of_filter {α : Type} (p : α → Bool) :
    ∀ l : List α, l.find? p = (l.filter p).head?
  | [] => rfl
  | a :: t => by
    by_cases h : p a
    · rw [List.find?_cons_of_pos _ h, List.filter_cons_of_pos h, List.head?_cons]
    · rw [List.find?_cons_of_neg _ h, List.filter_cons_of_neg h,
        find?_eq_head_of_filter p t]

/-- The head of the stable descending-by-value ordering of an aggregate
is its first entry of maximal value. -/
theorem topEntry_eq_firstMax {K : Type} (m : List (K × ℚ)) :
    topEntry m = firstMax m := by
  cases hs : ssort valGE m with
  | nil =>
    have hm : m = [] := by
      have := (perm_ssort valGE m).length_eq
      rw [hs] at this
      exact List.length_eq_zero.mp this.symm
    subst hm
    rfl
  | cons a s₂ =>
    have hmem : ∀ q : K × ℚ, q ∈ m → q.2 ≤ a.2 := by
      intro q hq
      have hq' : q ∈ ssort valGE m := (perm_ssort valGE m).mem_iff.mpr hq
      rw [hs] at hq'
      rcases List.mem_cons.mp hq' with rfl | hq₂
      · exact le_refl _
      · have := List.rel_of_pairwise_cons
          (hs ▸ pairwise_ssort valGE_trans valGE_total m) hq₂
        simpa [valGE, decide_eq_true_eq] using this
    have hpa : (fun e : K × ℚ => m.all (fun q => q.2 ≤ e.2)) a = true := by
      simp only [List.all_eq_true, decide_eq_true_eq]
      exact hmem
    have hfil : (ssort valGE m).filter
          (fun e => m.all (fun q => q.2 ≤ e.2)) =
        m.filter (fun e => m.all (fun q => q.2 ≤ e.2)) := by
      refine filter_ssort valGE _ m ?_
      intro x y hx hy hpx hpy
      simp only [List.all_eq_true, decide_eq_true_eq] at hpx hpy
      simp only [valGE, decide_eq_true_eq]
      exact hpx y hy
    have h1 : firstMax m =
        (m.filter (fun e => m.all (fun q => q.2 ≤ e.2))).head? :=
      find?_eq_head_of_filter _ m
    rw [firstMax] at h1 ⊢
    rw [h1, ← hfil, hs, List.filter_cons, if_pos hpa]
    simp [topEntry, hs]

/-! ## Helper lemmas: grouping -/

/-- `bump` adds exactly `v` to the total of the group values. -/
theorem sumVals_bump {K : Type} [DecidableEq K] :
    ∀ (m : List (K × ℚ)) (k : K) (v : ℚ),
      sumVals (bump m k v) = sumVals m + v
  | [], k, v => by simp [bump, sumVals]
  | p :: t, k, v => by
    by_cases h : p.1 = k
    · simp [bump, h, sumVals]; ring
    · simp only [bump, if_neg h]
      have ih := sumVals_bump t k v
      simp only [sumVals, List.map_cons, List.sum_cons] at ih ⊢
      rw [ih]; ring

/-- Folding `bump` over a record list adds the total of `val`. -/
theorem sumVals_foldl_bump {K : Type} [DecidableEq K]
    (key : GameData → K) (val : GameData → ℚ) :
    ∀ (l : List GameData) (acc : List (K × ℚ)),
      sumVals (l.foldl (fun a g => bump a (key g) (val g)) acc) =
        sumVals acc + (l.map val).sum
  | [], acc => by simp
  | g :: t, acc => by
    simp only [List.foldl_cons, List.map_cons, List.sum_cons]
    rw [sumVals_foldl_bump key val t, sumVals_bump]; ring

/-- Folding a guarded `bump` adds the total of `val` over the records
passing the guard. -/
theorem sumVals_foldl_bump_guard {K : Type} [DecidableEq K]
    (c : GameData → Bool) (key : GameData → K) (val : GameData → ℚ) :
    ∀ (l : List GameData) (acc : List (K × ℚ)),
      sumVals (l.foldl (fun a g => if c g then bump a (key g) (val g) else a) acc) =
        sumVals acc + ((l.filter c).map val).sum
  | [], acc => by simp
  | g :: t, acc => by
    by_cases h : c g
    · simp only [List.foldl_cons, if_pos h, List.filter_cons, h, ite_true,
        List.map_cons, List.sum_cons]
      rw [sumVals_foldl_bump_guard c key val t, sumVals_bump]; ring
    · simp only [List.foldl_cons, if_neg h, List.filter_cons, h, ite_false,
        Bool.false_eq_true]
      rw [sumVals_foldl_bump_guard c key val t]

/-- `jsEntries` permutes the underlying association list: enumeration
reorders the entries of the object, it neither drops nor adds any. -/
theorem perm_jsEntries {K : Type} (keyStr : K → String) (m : List (K × ℚ)) :
    (jsEntries keyStr m).Perm m := by
  refine List.Perm.trans ?_ (List.filter_append_perm
    (fun p => (arrayIndexVal (keyStr p.1)).isSome) m)
  exact (perm_ssort (idxLE keyStr) _).append (List.Perm.refl _)

/-! ## Helper lemmas: keys of an aggregate -/

theorem mem_keys_bump {K : Type} [DecidableEq K] :
    ∀ (m : List (K × ℚ)) (k : K) (v : ℚ) (a : K),
      (a ∈ (bump m k v).map Prod.fst) ↔ a ∈ m.map Prod.fst ∨ a = k
  | [], k, v, a => by simp [bump]
  | p :: t, k, v, a => by
    by_cases h : p.1 = k
    · subst h
      simp [bump, or_assoc, or_self_iff]
      constructor
      · rintro (rfl | hm)
        · exact Or.inl rfl
        · exact Or.inr (Or.inl hm)
      · rintro (rfl | hm | rfl)
        · exact Or.inl rfl
        · exact Or.inr hm
        · exact Or.inl rfl
    · simp only [bump, if_neg h, List.map_cons, List.mem_cons,
        mem_keys_bump t k v a, or_assoc]

theorem nodup_keys_bump {K : Type} [DecidableEq K] :
    ∀ (m : List (K × ℚ)) (k : K) (v : ℚ),
      (m.map Prod.fst).Nodup → ((bump m k v).map Prod.fst).Nodup
  | [], k, v, _ => by simp [bump]
  | p :: t, k, v, h => by
    rw [List.map_cons, List.nodup_cons] at h
    by_cases hpk : p.1 = k
    · simpa [bump, hpk, List.nodup_cons] using h
    · rw [bump, if_neg hpk, List.map_cons, List.nodup_cons]
      refine ⟨?_, nodup_keys_bump t k v h.2⟩
      rw [mem_keys_bump]
      rintro (hm | rfl)
      · exact h.1 hm
      · exact hpk rfl

/-- A key appears in a `bump`-fold aggregate iff it appears in the
starting accumulator or is the key of some folded record. -/
theorem mem_keys_foldl_bump {K : Type} [DecidableEq K]
    (key : GameData → K) (val : GameData → ℚ) :
    ∀ (l : List GameData) (acc : List (K × ℚ)) (a : K),
      (a ∈ (l.foldl (fun m g => bump m (key g) (val g)) acc).map Prod.fst) ↔
        a ∈ acc.map Prod.fst ∨ ∃ g ∈ l, key g = a
  | [], acc, a => by simp
  | g :: t, acc, a => by
    rw [List.foldl_cons, mem_keys_foldl_bump key val t, mem_keys_bump]
    constructor
    · rintro ((hm | rfl) | ⟨g', hg', rfl⟩)
      · exact Or.inl hm
      · exact Or.inr ⟨g, List.mem_cons_self g t, rfl⟩
      · exact Or.inr ⟨g', List.mem_cons_of_mem g hg', rfl⟩
    · rintro (hm | ⟨g', hg', rfl⟩)
      · exact Or.inl (Or.inl hm)
      · rcases List.mem_cons.mp hg' with rfl | hgt
        · exact Or.inl (Or.inr rfl)
        · exact Or.inr ⟨g', hgt, rfl⟩

theorem nodup_keys_foldl_bump {K : Type} [DecidableEq K]
    (key : GameData → K) (val : GameData → ℚ) :
    ∀ (l : List GameData) (acc : List (K × ℚ)),
      (acc.map Prod.fst).Nodup →
      ((l.foldl (fun m g => bump m (key g) (val g)) acc).map Prod.fst).Nodup
  | [], _, h => h
  | g :: t, acc, h =>
    nodup_keys_foldl_bump key val t _ (nodup_keys_bump acc (key g) (val g) h)

theorem objSet_of_not_mem {K : Type} [DecidableEq K] :
    ∀ (m : List (K × ℚ)) (k : K) (v : ℚ), k ∉ m.map Prod.fst →
      objSet m k v = m ++ [(k, v)]
  | [], k, v, _ => rfl
  | p :: t, k, v, h => by
    have hpk : ¬ p.1 = k := by
      intro he
      exact h (by simp [he])
    rw [objSet, if_neg hpk, objSet_of_not_mem t k v (by
      intro hm
      exact h (by simp [hm]))]
    simp

/-- With pairwise-distinct keys that avoid the accumulator, a fold of
`objSet` assignments is an append of the assigned entries in order. -/
theorem foldl_objSet_map {K : Type} [DecidableEq K] (f : K × ℚ → ℚ) :
    ∀ (m acc : List (K × ℚ)),
      (m.map Prod.fst).Nodup →
      (∀ a ∈ m.map Prod.fst, a ∉ acc.map Prod.fst) →
      m.foldl (fun acc p => objSet acc p.1 (f p)) acc =
        acc ++ m.map (fun p => (p.1, f p))
  | [], acc, _, _ => by simp
  | p :: t, acc, hn, hd => by
    rw [List.map_cons, List.nodup_cons] at hn
    rw [List.foldl_cons, objSet_of_not_mem acc p.1 (f p)
      (hd p.1 (by simp))]
    rw [foldl_objSet_map f t (acc ++ [(p.1, f p)]) hn.2 ?_]
    · simp
    · intro a ha
      rw [List.map_append, List.mem_append]
      rintro (hacc | hp)
      · exact hd a (by simp [ha]) hacc
      · simp only [List.map_cons, List.map_nil, List.mem_singleton] at hp
        subst hp
        exact hn.1 ha

/-- `averageSalesByGenre` assigns each enumerated genre of `genreSales`
exactly once, in enumeration order: it is the map dividing each
genre's sum by its count. -/
theorem averageSalesByGenre_eq_map (l : List GameData) :
    averageSalesByGenre l =
      (jsEntries (fun s => s) (genreSales l)).map (fun p =>
        (p.1, p.2 / ((l.filter (fun g => g.Genre == p.1)).length : ℚ))) := by
  have hn0 : ((genreSales l).map Prod.fst).Nodup :=
    nodup_keys_foldl_bump (fun g => g.Genre) numGS l [] (by simp)
  have hn : ((jsEntries (fun s => s) (genreSales l)).map Prod.fst).Nodup :=
    ((perm_jsEntries (fun s => s) (genreSales l)).map Prod.fst).nodup_iff.mpr hn0
  have h := foldl_objSet_map
    (fun p => p.2 / ((l.filter (fun g => g.Genre == p.1)).length : ℚ))
    (jsEntries (fun s => s) (genreSales l)) [] hn (by simp)
  simpa [averageSalesByGenre] using h

theorem lookup_eq_of_mem_of_nodup {K : Type} [DecidableEq K] :
    ∀ (m : List (K × ℚ)) (k : K) (s : ℚ),
      (m.map Prod.fst).Nodup → (k, s) ∈ m → m.lookup k = some s
  | [], k, s, _, h => absurd h (List.not_mem_nil (k, s))
  | p :: t, k, s, hn, h => by
    rw [List.map_cons, List.nodup_cons] at hn
    rcases List.mem_cons.mp h with rfl | ht
    · simp [List.lookup]
    · have hk : k ∈ t.map Prod.fst := by
        exact List.mem_map.mpr ⟨(k, s), ht, rfl⟩
      have hne : (k == p.1) = false := by
        refine beq_eq_false_iff_ne.mpr ?_
        intro he
        subst he
        exact hn.1 hk
      rw [List.lookup, hne]
      exact lookup_eq_of_mem_of_nodup t k s hn.2 ht

/-! ## C1 -/

/-- C1: `applyFilters` returns an order-preserving subsequence of its
input, every returned record satisfies both active constraints
conjunctively, and a record with an absent year or platform never
matches a specific (non-`"all"`) constraint. -/
theorem applyFilters_correct (data : List GameData) (fy fp : String) :
    (filteredData data fy fp).Sublist data ∧
    (∀ g ∈ filteredData data fy fp,
      yearMatch g fy = true ∧ platformMatch g fp = true) ∧
    (∀ g : GameData, fy ≠ "all" → g.Year = none → yearMatch g fy = false) ∧
    (∀ g : GameData, fp ≠ "all" → g.Platform = none →
      platformMatch g fp = false) := by
  refine ⟨List.filter_sublist data, ?_, ?_, ?_⟩
  · intro g hg
    have h := List.of_mem_filter hg
    exact Bool.and_eq_true_iff.mp h
  · intro g hfy hY
    simp [yearMatch, hY, yearTruthy, hfy]
  · intro g hfp hP
    simp [platformMatch, hP, hfp]

/-- Witness for C1 at concrete inputs. -/
theorem applyFilters_correct_witness :
    (yearMatch gWii2008 "2008" = true ∧ platformMatch gWii2008 "Wii" = true) ∧
    yearMatch gAbsent "2008" = false ∧ platformMatch gAbsent "Wii" = false := by
  refine ⟨?_, ?_, ?_⟩
  · exact (applyFilters_correct [gWii2008, gAbsent] "2008" "Wii").2.1
      gWii2008 (by decide)
  · exact (applyFilters_correct [gWii2008, gAbsent] "2008" "Wii").2.2.1
      gAbsent (by decide) rfl
  · exact (applyFilters_correct [gWii2008, gAbsent] "2008" "Wii").2.2.2
      gAbsent (by decide) rfl

/-! ## C9 -/

/-- C9: the two dashboard variants' year filters are inequivalent: on a
record with year `0` and criterion `"0"`, the `String(game.Year)`
variant (which requires a truthy year) rejects the record while the
`parseInt` variant accepts it. -/
theorem yearFilter_variants_differ :
    filteredData [gYear0] "0" "all" = [] ∧
    filteredDataV1 [gYear0] "0" "all" = [gYear0] ∧
    filteredData [gYear0] "0" "all" ≠ filteredDataV1 [gYear0] "0" "all" := by
  refine ⟨by decide, by decide, by decide⟩

/-! ## C2 -/

/-- C2 fails on the code: `filteredData.sort(cmp)` (the top-10 chart's
data expression) sorts the memoized `filteredData` array in place, so
after the derivation the input sequence is no longer in its original
order: with inputs `[gLow, gHigh]` (ascending sales) the array is left
reordered to `[gHigh, gLow]`. -/
theorem topTen_mutates_filteredData :
    (topTenRender [gLow, gHigh]).1 = [gHigh, gLow] ∧
    (topTenRender [gLow, gHigh]).1 ≠ [gLow, gHigh] := by
  refine ⟨by decide, by decide⟩

/-! ## C3 -/

/-- C3 fails for the year grouping: `yearlyTrend` skips records whose
year is absent, so on a single absent-year record with 5M sales the
group values sum to `0` while the global-sales field sums to `5`. -/
theorem groupSum_year_not_mass_conserving :
    sumVals (yearlyTrend [gAbsent]) = 0 ∧
    ([gAbsent].map numGS).sum = 5 ∧
    sumVals (yearlyTrend [gAbsent]) ≠ ([gAbsent].map numGS).sum := by
  have h1 : sumVals (yearlyTrend [gAbsent]) = 0 := rfl
  have h2 : ([gAbsent].map numGS).sum = 5 := by
    simp [numGS, gAbsent]
  refine ⟨h1, h2, ?_⟩
  rw [h1, h2]
  norm_num

/-- C3 amended: mass conservation holds for the platform and genre
groupings; the year grouping conserves the global-sales mass of
exactly the records with a present, truthy year. -/
theorem groupSum_mass_conservation (l : List GameData) :
    sumVals (platformSales l) = (l.map numGS).sum ∧
    sumVals (genreSales l) = (l.map numGS).sum ∧
    sumVals (yearlyTrend l) =
      ((l.filter (fun g => yearTruthy g.Year)).map numGS).sum := by
  refine ⟨?_, ?_, ?_⟩
  · have h := sumVals_foldl_bump (fun g => platformKey g.Platform) numGS l []
    simpa [platformSales, groupSum, sumVals] using h
  · have h := sumVals_foldl_bump (fun g => g.Genre) numGS l []
    simpa [genreSales, groupSum, sumVals] using h
  · have h := sumVals_foldl_bump_guard (fun g => yearTruthy g.Year)
      (fun g => g.Year.getD 0) numGS l []
    simpa [yearlyTrend, sumVals] using h

/-! ## C5 -/

/-- C5: every entry of `averageSalesByGenre` is a genre with at least
one matching record (so no division by zero occurs), and its value is
that genre's `genreSales` group sum divided by the count of records
with that genre. -/
theorem averageBy_correct (l : List GameData) (p : String × ℚ)
    (hp : p ∈ averageSalesByGenre l) :
    ∃ s : ℚ,
      (genreSales l).lookup p.1 = some s ∧
      0 < (l.filter (fun g => g.Genre == p.1)).length ∧
      p.2 = s / ((l.filter (fun g => g.Genre == p.1)).length : ℚ) := by
  rw [averageSalesByGenre_eq_map] at hp
  obtain ⟨q, hq, heq⟩ := List.mem_map.mp hp
  subst heq
  have hql : q ∈ genreSales l :=
    (perm_jsEntries (fun s => s) (genreSales l)).mem_iff.mp hq
  have hn : ((genreSales l).map Prod.fst).Nodup :=
    nodup_keys_foldl_bump (fun g => g.Genre) numGS l [] (by simp)
  refine ⟨q.2, ?_, ?_, rfl⟩
  · exact lookup_eq_of_mem_of_nodup (genreSales l) q.1 q.2 hn (by simpa using hql)
  · have hkey : q.1 ∈ (genreSales l).map Prod.fst :=
      List.mem_map.mpr ⟨q, hql, rfl⟩
    have hk := (mem_keys_foldl_bump (fun g => g.Genre) numGS l [] q.1).mp hkey
    rcases hk with h0 | ⟨g, hg, hGenre⟩
    · simp at h0
    · have hmem : g ∈ l.filter (fun g => g.Genre == q.1) :=
        List.mem_filter.mpr ⟨hg, beq_iff_eq.mpr hGenre⟩
      exact List.length_pos.mpr (List.ne_nil_of_mem hmem)

/-- Witness for C5 at a concrete input. -/
theorem averageBy_correct_witness :
    ∃ s : ℚ,
      (genreSales [gWii2008]).lookup "Action" = some s ∧
      0 < ([gWii2008].filter (fun g => g.Genre == "Action")).length ∧
      (10 : ℚ) = s /
        (([gWii2008].filter (fun g => g.Genre == "Action")).length : ℚ) := by
  have hp : (("Action", (10 : ℚ))) ∈ averageSalesByGenre [gWii2008] := by
    rw [averageSalesByGenre_eq_map]
    refine List.mem_map.mpr ⟨("Action", 10), ?_, ?_⟩
    · simp [genreSales, groupSum, bump, numGS, gWii2008, jsEntries,
        arrayIndexVal, idxLE, ssort]
    · simp [gWii2008]
  exact averageBy_correct [gWii2008] ("Action", 10) hp

/-! ## C4 -/

/-- C4: the top-N ranking has length `min n |R|`, is sorted descending
by the value function, is stable (elements of any one value appear in
the full ranking exactly in their input order, which is how the ties
are broken), and sorting the returned sequence again with the same
comparator yields the same sequence. -/
theorem topN_correct (l : List GameData) (n : Nat) :
    (topN l n).length = min n l.length ∧
    (topN l n).Pairwise (fun a b => numGS b ≤ numGS a) ∧
    (∀ v : ℚ, (rankDesc l).filter (fun g => numGS g == v) =
      l.filter (fun g => numGS g == v)) ∧
    ssort gsGE (topN l n) = topN l n := by
  have hpair : (rankDesc l).Pairwise (fun x y => gsGE x y = true) :=
    pairwise_ssort gsGE_trans gsGE_total l
  have hpairN : (topN l n).Pairwise (fun x y => gsGE x y = true) :=
    hpair.sublist (List.take_sublist n (rankDesc l))
  refine ⟨?_, ?_, ?_, ?_⟩
  · rw [topN, List.length_take]
    rw [show (rankDesc l).length = l.length from (perm_ssort gsGE l).length_eq]
  · exact hpairN.imp (fun h => by
      simpa [gsGE, decide_eq_true_eq] using h)
  · intro v
    refine filter_ssort gsGE _ l ?_
    intro x y hx hy hpx hpy
    have hx' : numGS x = v := by simpa using hpx
    have hy' : numGS y = v := by simpa using hpy
    simp [gsGE, hx', hy']
  · exact ssort_of_sorted hpairN

/-! ## C7 -/

/-- C7 fails on the code: platform keys that are array indices (here
`"2600"`) enumerate before the insertion-ordered keys in
`Object.entries`, so on a `"Wii"`/`"2600"` tie at 10M the code's
`topPlatform` is `("2600", 10)` and not the first-seen key
`("Wii", 10)` the claim's tie-break names. -/
theorem topPlatform_not_first_seen :
    (metrics [gWii2008, g2600]).topPlatform = some ("2600", 10) ∧
    firstMax (platformSales [gWii2008, g2600]) = some ("Wii", 10) ∧
    (metrics [gWii2008, g2600]).topPlatform ≠
      firstMax (platformSales [gWii2008, g2600]) := by
  refine ⟨by decide, by decide, by decide⟩

/-- C7 amended: the summary metrics' top platform and top genre are the
first entry of maximal summed value in the aggregate's
`Object.entries` enumeration order (array-index keys such as platform
`"2600"` first, ascending numerically, then the remaining keys in
first-seen input order): a tie goes to the key enumerated first in
that order, which is the first-seen key only when no array-index key
is involved.  Enumeration permutes the aggregate, so the selected
value is the maximal summed value of the aggregate itself. -/
theorem metrics_top_group_enum (l : List GameData) :
    (metrics l).topPlatform =
      firstMax (jsEntries (fun s => s) (platformSales l)) ∧
    (metrics l).topGenre =
      firstMax (jsEntries (fun s => s) (genreSales l)) ∧
    (jsEntries (fun s => s) (platformSales l)).Perm (platformSales l) ∧
    (jsEntries (fun s => s) (genreSales l)).Perm (genreSales l) :=
  ⟨topEntry_eq_firstMax _, topEntry_eq_firstMax _,
    perm_jsEntries _ _, perm_jsEntries _ _⟩

/-! ## C8 -/

/-- Componentwise closed form of the `regionalSales` fold. -/
theorem regionalSales_foldl (l : List GameData) :
    ∀ acc : Regions,
      l.foldl addRegions acc =
        { NA := acc.NA + (l.map (fun g => g.NA_Sales.getD 0)).sum
          EU := acc.EU + (l.map (fun g => g.EU_Sales.getD 0)).sum
          JP := acc.JP + (l.map (fun g => g.JP_Sales.getD 0)).sum
          Other := acc.Other + (l.map (fun g => g.Other_Sales.getD 0)).sum } := by
  induction l with
  | nil => intro acc; simp
  | cons g t ih =>
    intro acc
    simp only [List.foldl_cons, ih, List.map_cons, List.sum_cons, addRegions,
      Regions.mk.injEq]
    refine ⟨?_, ?_, ?_, ?_⟩ <;> ring

/-- C8: `regionalTotals` returns exactly the four regional sums (absent
values as `0`), and the result does not depend on the global-sales
field. -/
theorem regionalTotals_correct (l : List GameData) (f : GameData → Option ℚ) :
    regionalSales l =
      { NA := (l.map (fun g => g.NA_Sales.getD 0)).sum
        EU := (l.map (fun g => g.EU_Sales.getD 0)).sum
        JP := (l.map (fun g => g.JP_Sales.getD 0)).sum
        Other := (l.map (fun g => g.Other_Sales.getD 0)).sum } ∧
    regionalSales (l.map (fun g => { g with Global_Sales := f g })) =
      regionalSales l := by
  constructor
  · have h := regionalSales_foldl l { NA := 0, EU := 0, JP := 0, Other := 0 }
    simpa [regionalSales] using h
  · unfold regionalSales
    rw [List.foldl_map]
    rfl

/-! ## C10 -/

/-- C10: the load-step enrichment sets `Total_Regional_Sales` to the
sum of the four regional figures (absent treated as `0`) and leaves
every other field of the record unchanged. -/
theorem enrich_correct (g : GameData) (l : List GameData) :
    (enrich g).Total_Regional_Sales =
      g.NA_Sales.getD 0 + g.EU_Sales.getD 0 +
        g.JP_Sales.getD 0 + g.Other_Sales.getD 0 ∧
    (enrich g).Rank = g.Rank ∧
    (enrich g).Name = g.Name ∧
    (enrich g).Platform = g.Platform ∧
    (enrich g).Year = g.Year ∧
    (enrich g).Genre = g.Genre ∧
    (enrich g).Publisher = g.Publisher ∧
    (enrich g).NA_Sales = g.NA_Sales ∧
    (enrich g).EU_Sales = g.EU_Sales ∧
    (enrich g).JP_Sales = g.JP_Sales ∧
    (enrich g).Other_Sales = g.Other_Sales ∧
    (enrich g).Global_Sales = g.Global_Sales ∧
    dataWithCalculatedFields l = l.map enrich :=
  ⟨rfl, rfl, rfl, rfl, rfl, rfl, rfl, rfl, rfl, rfl, rfl, rfl, rfl⟩

/-! ## C6 -/

/-- C6: on the empty record sequence every derivation is defined:
filtering returns `[]` for every criteria pair, the groupings are the
empty mapping, and the summary metrics report a zero count with the
non-finite sentinel (`none`, the model of JavaScript `NaN`) for the
average and each per-region share instead of a division fault. -/
theorem emptyInput_defined (fy fp : String) :
    filteredData [] fy fp = [] ∧
    platformSales [] = [] ∧
    genreSales [] = [] ∧
    yearlyTrend [] = [] ∧
    (metrics []).totalGames = 0 ∧
    (metrics []).avgSalesPerGame = none ∧
    (metrics []).shareNA = none ∧
    (metrics []).shareEU = none ∧
    (metrics []).shareJP = none ∧
    (metrics []).shareOther = none := by
  refine ⟨rfl, rfl, rfl, rfl, rfl, ?_, ?_, ?_, ?_, ?_⟩ <;>
    simp [metrics, jsDiv, regionalSales]

